import Mathlib

/-!
Verification of the FRAD ripeness pipeline (TCN4081 Group 20 project).

Shallow embedding of the pure decision/normalization/calibration logic of
the repository.  Numeric values are modelled as rationals (`ℚ`); a feature
row is a partial map `String → Option ℚ` where `none` stands for a cell
that is missing or that Python's `float()` cannot parse.  Python's
`float("nan")` behaves exactly like a missing cell in every comparison
performed by the code below (all comparisons with NaN are false), so NaN
cells are also modelled by `none`.
-/

/-- Threshold of a decision rule: the JSON `value` field is either a scalar
or a two-element `[lo, hi]` list (used by the `between` operator). -/
inductive Thr where
  | scalar (t : ℚ)
  | pair (a b : ℚ)
deriving DecidableEq

/-- Python `sorted(thr) if isinstance(thr, (list, tuple)) else (thr, thr)`
from `evaluator.py` `apply_rule` and `ripeness_index_run.py`
`eval_rules_verbose`. -/
def sortedPair (thr : Thr) : ℚ × ℚ :=
  match thr with
  | Thr.scalar t => (t, t)
  | Thr.pair a b => if a ≤ b then (a, b) else (b, a)

/-- One decision rule, `{"index": ..., "op": ..., "value": ..., "vote": ...}`.
The `vote` field already carries the Python-side default `"ripe"` applied by
`rule.get("vote", "ripe")`. -/
structure DRuleV where
  index : String
  op : String
  value : Thr
  vote : String
deriving DecidableEq

/-- Decision configuration: ordered rule list plus fallback label,
`cal["decision"]` in the JSON documents. -/
structure DecisionCfg where
  rules : List DRuleV
  fallback : String

/-- Source: `evaluator.py` lines 34-46, `apply_rule(val, op, thr)`.  The
`try: float(val)` guard is handled by the caller in this embedding (a cell
that does not parse is `none` and the rule is skipped by `classify_row`).
For an inequality operator with a list threshold Python would raise
`TypeError`; those ill-formed rules are excluded by `ruleWellFormed` in the
theorems and the value returned here for them is immaterial. -/
def apply_rule (x : ℚ) (op : String) (thr : Thr) : Bool :=
  if op = ">=" then
    match thr with
    | Thr.scalar t => decide (t ≤ x)
    | Thr.pair _ _ => false
  else if op = "<=" then
    match thr with
    | Thr.scalar t => decide (x ≤ t)
    | Thr.pair _ _ => false
  else if op = ">" then
    match thr with
    | Thr.scalar t => decide (t < x)
    | Thr.pair _ _ => false
  else if op = "<" then
    match thr with
    | Thr.scalar t => decide (x < t)
    | Thr.pair _ _ => false
  else if op = "between" then
    decide ((sortedPair thr).1 ≤ x) && decide (x ≤ (sortedPair thr).2)
  else false

/-- Source: `ripeness_index_run.py` lines 209-216, the inline
`if/elif` operator chain of `eval_rules_verbose` (hoisted into a named
function; the chain tests `<`, `<=`, `>`, `>=`, `between` in that order). -/
def evalOpTest (op : String) (x : ℚ) (thr : Thr) : Bool :=
  if op = "<" then
    match thr with
    | Thr.scalar t => decide (x < t)
    | Thr.pair _ _ => false
  else if op = "<=" then
    match thr with
    | Thr.scalar t => decide (x ≤ t)
    | Thr.pair _ _ => false
  else if op = ">" then
    match thr with
    | Thr.scalar t => decide (t < x)
    | Thr.pair _ _ => false
  else if op = ">=" then
    match thr with
    | Thr.scalar t => decide (t ≤ x)
    | Thr.pair _ _ => false
  else if op = "between" then
    decide ((sortedPair thr).1 ≤ x) && decide (x ≤ (sortedPair thr).2)
  else false

/-- A rule the Python code can evaluate without raising: an inequality
operator must carry a scalar threshold (`val >= [lo,hi]` would raise
`TypeError` in both call sites). -/
def ruleWellFormed (r : DRuleV) : Bool :=
  match r.value with
  | Thr.scalar _ => true
  | Thr.pair _ _ => !(r.op = ">=" || r.op = "<=" || r.op = ">" || r.op = "<")

/-- Per-rule pass test of `eval_rules_verbose`:
`val = indices_vals.get(idx, float("nan"))` makes a missing feature compare
false under every operator. -/
def evalRulePass (row : String → Option ℚ) (r : DRuleV) : Bool :=
  match row r.index with
  | none => false
  | some x => evalOpTest r.op x r.value

/-- Votes collected by the rule loop of `eval_rules_verbose`
(`ripeness_index_run.py` lines 201-221), in rule order. -/
def evalVotes (row : String → Option ℚ) (rules : List DRuleV) : List String :=
  rules.filterMap (fun r => if evalRulePass row r then some r.vote else none)

/-- Keep the first occurrence of every element, in order: the key order of
Python's `collections.Counter` built from a list. -/
def firstOccs : List String → List String
  | [] => []
  | v :: rest => v :: firstOccs (rest.filter (fun w => !(decide (w = v))))
termination_by l => l.length
decreasing_by
  simp only [List.length_cons]
  exact Nat.lt_succ_of_le (List.length_filter_le _ _)

/-- Model of `Counter(votes).most_common(1)[0][0]` with a default for the
empty case: among the distinct votes in first-occurrence order, the first
one attaining the maximal count (`heapq.nlargest` is stable, so ties go to
the earlier-registered key). -/
def counterTop (votes : List String) (dflt : String) : String :=
  match firstOccs votes with
  | [] => dflt
  | u :: us => us.foldl (fun b v => if votes.count b < votes.count v then v else b) u

/-- Source: `ripeness_index_run.py` lines 195-235, `eval_rules_verbose`.
Returns `(label, votes)`; the human-readable `logs` list (and the verbose
printing) carries no decision content and is not modelled. -/
def eval_rules_verbose (row : String → Option ℚ) (cfg : DecisionCfg) :
    String × List String :=
  let votes := evalVotes row cfg.rules
  (counterTop votes cfg.fallback, votes)

/-- Votes collected by the rule loop of `classify_row` (`evaluator.py`
lines 48-61): a rule whose feature is absent (or empty / unparseable) is
skipped before `apply_rule` is called. -/
def classifyVotes (row : String → Option ℚ) (rules : List DRuleV) : List String :=
  rules.filterMap (fun r =>
    match row r.index with
    | none => none
    | some x => if apply_rule x r.op r.value then some r.vote else none)

/-- Python `str.lower` on the (ASCII) label strings of this code base:
lowercase each character. -/
def pyLower (s : String) : String := String.mk (s.data.map Char.toLower)

/-- Source: `evaluator.py` lines 48-62, `classify_row`.  Note the trailing
`.lower()` on the returned label. -/
def classify_row (row : String → Option ℚ) (rules : List DRuleV)
    (fallback : String) : String :=
  pyLower (counterTop (classifyVotes row rules) fallback)

/-! ### Calibration (calibrate_index.py / ripeness_index_run.py) -/

/-- Per-channel calibration parameters; `none` models a JSON object missing
the key, defaulted by `params.get("offset", 0.0)` / `params.get("scale", 1.0)`. -/
structure CalParams where
  offset : Option ℚ
  scale : Option ℚ
deriving DecidableEq

/-- Source: `calibrate_index.py` lines 22-38, `apply_calibration`: for each
band of the calibration document that is also a column of the data frame,
`out[band] = (out[band] - offset) * scale`.  A data-frame row is a partial
map from column name to value; a band absent from the columns is skipped. -/
def apply_calibration (row : String → Option ℚ)
    (cal : List (String × CalParams)) : String → Option ℚ :=
  cal.foldl (fun out bp => fun c =>
    if c = bp.1 then
      (out bp.1).map (fun v => (v - bp.2.offset.getD 0) * bp.2.scale.getD 1)
    else out c) row

/-- Source: `ripeness_index_run.py` lines 127-132, `apply_offsets_scales`:
for each configured channel present in the row,
`out[k] = (out[k] + offset) * scale`. -/
def apply_offsets_scales (row : String → Option ℚ)
    (channels_cfg : List (String × CalParams)) : String → Option ℚ :=
  channels_cfg.foldl (fun out kc => fun c =>
    if c = kc.1 then
      (out kc.1).map (fun v => (v + kc.2.offset.getD 0) * kc.2.scale.getD 1)
    else out c) row

/-! ### Index ratios (ripeness_index_run.py) -/

/-- Green/yellow/red column mapping produced by `find_columns`. -/
structure BandCols where
  g : String
  y : String
  r : String

structure IndexRatios where
  y_over_g : ℚ
  r_over_g : ℚ
  nir_over_red : ℚ
  green_drop : ℚ
deriving DecidableEq

/-- Source: `ripeness_index_run.py` lines 83-96, `compute_ratios_from_row`.
`_safe_float(latest.get(k, 0.0))` maps a missing or unparseable cell to 0
(to 1.0 for CLEAR, whose `get` default and `_safe_float` default are both
1.0); the green denominator is replaced by 1.0 when it is not positive
(`g = g if g > 0 else 1.0  # avoid div/0`), and that replaced value is also
the numerator of `green_drop`. -/
def compute_ratios_from_row (latest : String → Option ℚ) (cols : BandCols) :
    IndexRatios :=
  let g0 := (latest cols.g).getD 0
  let y := (latest cols.y).getD 0
  let r := (latest cols.r).getD 0
  let g := if 0 < g0 then g0 else 1
  let nir := (latest "NIR").getD 0
  let clear := (latest "CLEAR").getD 1
  { y_over_g := y / g
    r_over_g := r / g
    nir_over_red := if 0 < r then nir / r else 0
    green_drop := if 0 < clear then g / clear else 0 }

/-! ### Inline normalizer (frad_appV6.py) -/

/-- Rounding performed by writing a value with `f"{x:.8f}"`: the nearest
multiple of 10⁻⁸.  (Python rounds the binary double half-to-even; the exact
tie-breaking rule is immaterial to every property proved here, and
`round8 0 = 0`, `round8` of an exact small decimal is itself.) -/
def round8 (x : ℚ) : ℚ := ((round (x * 100000000) : ℤ) : ℚ) / 100000000

/-- The CLEAR-column test `"clear" in h.lower()` of `_normalize_inline`. -/
def isClearHeader (h : String) : Bool :=
  2 ≤ (h.toLower.splitOn "clear").length

/-- Value of a written CSV cell: `float(x.get(c, "0") or "0")`, where every
cell of a written row is numeric, and a missing column reads as 0. -/
def lookupQ (r : List (String × ℚ)) (c : String) : ℚ :=
  match r.find? (fun p => p.1 == c) with
  | some p => p.2
  | none => 0

/-- One cell of the first pass of `_normalize_inline` (frad_appV6.py lines
207-218): a parseable cell is divided by CLEAR when CLEAR is positive and
becomes 0 otherwise; an unparseable cell is written as `"0"` by the
`except` branch. -/
def normCell (clr : ℚ) (cell : Option ℚ) : ℚ :=
  match cell with
  | some v => if 0 < clr then round8 (v / clr) else 0
  | none => 0

/-- One row of the first pass of `_normalize_inline`: every header except
the CLEAR column is treated as a numeric channel (`numeric_cols`), and the
CLEAR cell itself is written as `"1.0"` if CLEAR > 0 else `"0"` (line 219). -/
def normalizeRowInline (headers : List String) (cc : String)
    (row : String → Option ℚ) : List (String × ℚ) :=
  let clr := (row cc).getD 0
  headers.map (fun c =>
    (c, if c = cc then (if 0 < clr then 1 else 0) else normCell clr (row c)))

def meanQ (l : List ℚ) : ℚ := l.sum / (l.length : ℚ)

/-- Second pass of `_normalize_inline` (lines 222-231): trailing moving
average over a buffer of at most `window` normalized rows ending at the
current one; `prevRev` is the reversed list of rows already processed.  The
CLEAR column is not in `numeric_cols` and keeps its pass-one value. -/
def smoothRows (window : Nat) (headers : List String) (cc : String) :
    List (List (String × ℚ)) → List (List (String × ℚ)) →
      List (List (String × ℚ))
  | _, [] => []
  | prevRev, r :: rest =>
    (headers.map (fun c => (c, if c = cc then lookupQ r cc
        else round8 (meanQ (((r :: prevRev).take window).map
          (fun x => lookupQ x c)))))) ::
      smoothRows window headers cc (r :: prevRev) rest

/-- Source: `frad_appV6.py` lines 184-237, `_normalize_inline` (file I/O
elided: the input is the parsed CSV as a header list plus one partial map
per data row, the output the rows that would be written). -/
def normalize_inline (window : Nat) (headers : List String)
    (rows : List (String → Option ℚ)) :
    Except String (List (List (String × ℚ))) :=
  if rows.isEmpty then Except.error "Inline normalize: empty input"
  else
    match headers.find? isClearHeader with
    | none => Except.error "Inline normalize: CLEAR column not found"
    | some cc =>
        Except.ok (smoothRows window headers cc []
          (rows.map (normalizeRowInline headers cc)))

/-! ### Threshold overrides (frad_appV6.py) -/

/-- Score summary produced by the scoring stage: the fields of the
`current_summary` dict that `_apply_threshold_overrides` reads or writes. -/
structure ScoreSummary where
  label : String
  confidence : Option ℚ
  tag : Option String
deriving DecidableEq

def isKnownOverrideOp (op : String) : Bool :=
  op = ">=" || op = "<=" || op = ">" || op = "<" || op = "=="

/-- Operator table `ops` of `_apply_threshold_overrides` (frad_appV6.py
lines 282-288); result for an unknown operator is immaterial (the caller
checks `op not in ops` first). -/
def overrideOpEval (op : String) (a b : ℚ) : Bool :=
  if op = ">=" then decide (b ≤ a)
  else if op = "<=" then decide (a ≤ b)
  else if op = ">" then decide (b < a)
  else if op = "<" then decide (a < b)
  else if op = "==" then decide (|a - b| < 1 / 1000000000)
  else false

def lookupF (fs : List (String × ℚ)) (c : String) : Option ℚ :=
  (fs.find? (fun p => p.1 == c)).map Prod.snd

/-- `features = {k: _to_float_safe(v) for k, v in row.items()}` (line 274):
every cell of the final index row becomes a number, unparseable text
becomes 0.0. -/
def featuresOf (row : List (String × Option ℚ)) : List (String × ℚ) :=
  row.map (fun p => (p.1, p.2.getD 0))

/-- Friendly aliases of `_apply_threshold_overrides` (lines 277-280):
`nir/red` also answers to `nir_red_ratio`, `ripe_index` to `ri`. -/
def withAliases (fs : List (String × ℚ)) : List (String × ℚ) :=
  let fs1 :=
    match lookupF fs "nir/red", lookupF fs "nir_red_ratio" with
    | some v, none => fs ++ [("nir_red_ratio", v)]
    | _, _ => fs
  match lookupF fs1 "ripe_index", lookupF fs1 "ri" with
  | some v, none => fs1 ++ [("ri", v)]
  | _, _ => fs1

/-- The summary built when every override condition passes (lines 305-309). -/
def forcedSummary (current : ScoreSummary) : ScoreSummary :=
  { label := "ripe"
    confidence := some (max (9 / 10 : ℚ) ((current.confidence).getD 0))
    tag := some "profiles.indices.ripe_if" }

/-- The condition loop of `_apply_threshold_overrides` (lines 290-303) with
its three early returns: unknown operator, missing feature, failed test.
`next(iter(cond.items()))` reads only the first entry of each condition
mapping; falling off the end of the loop forces the summary. -/
def overrideLoop (features : List (String × ℚ)) (current : ScoreSummary) :
    List (String × List (String × ℚ)) → ScoreSummary
  | [] => forcedSummary current
  | (feat, cond) :: rest =>
    match cond with
    | [] => overrideLoop features current rest
    | (op, thr) :: _ =>
      if !(isKnownOverrideOp op) then current
      else
        match lookupF features feat with
        | none => current
        | some val =>
            if overrideOpEval op val thr then overrideLoop features current rest
            else current

/-- Source: `frad_appV6.py` lines 258-309, `_apply_threshold_overrides`
(`_read_last_row_csv` elided: `row` is the parsed final row of the index
CSV).  A condition mapping is an ordered association list, matching the
dict iteration order used by `next(iter(cond.items()))`. -/
def applyThresholdOverrides (row : List (String × Option ℚ))
    (thresholds : List (String × List (String × ℚ)))
    (current : ScoreSummary) : ScoreSummary :=
  if thresholds.isEmpty then current
  else overrideLoop (withAliases (featuresOf row)) current thresholds

/-- Spec-side reading of one override condition: vacuous when the mapping
is empty (the loop `continue`s), otherwise the first entry must use a known
operator, find its feature, and pass its test. -/
def condPasses (features : List (String × ℚ)) (feat : String)
    (cond : List (String × ℚ)) : Bool :=
  match cond with
  | [] => true
  | (op, thr) :: _ =>
    isKnownOverrideOp op &&
      (match lookupF features feat with
       | some val => overrideOpEval op val thr
       | none => false)

/-! ### Threshold autotuner (evaluator_autotune.py) -/

/-- One labelled index row as the autotuner reads it: the `y_over_g` and
`r_over_g` cells; `none` models a missing cell (read as `float("nan")` in
`classify` and skipped by `pull` in `build_candidates`). -/
structure ARow where
  y : Option ℚ
  r : Option ℚ
deriving DecidableEq

def pullVals (f : ARow → Option ℚ) (rows : List ARow) : List ℚ :=
  rows.filterMap f

/-- The quantile positions `q` of `build_candidates` (line 118). -/
def QLIST : List ℚ :=
  [1/20, 1/10, 1/5, 3/10, 2/5, 1/2, 3/5, 7/10, 4/5, 9/10, 19/20]

def sortAsc (l : List ℚ) : List ℚ := l.insertionSort (fun a b => a ≤ b)

/-- Source: `evaluator_autotune.py` lines 95-102, `quantiles`, for one
position `q` over the sorted values: linear interpolation between the
neighbouring order statistics. -/
def quantileAt (xs : List ℚ) (q : ℚ) : ℚ :=
  let n := xs.length
  let i : ℚ := ((n : ℚ) - 1) * q
  let lo : Nat := (⌊i⌋).toNat
  let hi : Nat := min (lo + 1) (n - 1)
  let t : ℚ := i - (lo : ℚ)
  xs.getD lo 0 * (1 - t) + xs.getD hi 0 * t

/-- `quantiles` returns `[nan]*len(qlist)` on an empty value list; `none`
models that all-NaN result. -/
def quantilesOpt (vals : List ℚ) : Option (List ℚ) :=
  match vals with
  | [] => none
  | _ => some (QLIST.map (quantileAt (sortAsc vals)))

/-- Arithmetic on possibly-NaN quantiles: any NaN operand gives NaN. -/
def halfSum : Option ℚ → Option ℚ → Option ℚ
  | some a, some b => some ((a + b) / 2)
  | _, _ => none

def qIdx (o : Option (List ℚ)) (i : Nat) : Option ℚ :=
  o.map (fun l => l.getD i 0)

/-- Source: `evaluator_autotune.py` lines 104-145, `build_candidates`, for
one feature (the identical construction is used for `y_over_g` and
`r_over_g`): midpoints of opposing fresh/bad quantiles plus the raw
boundary quantiles themselves, with NaN entries removed by the
`math.isfinite` filter, then `sorted(set(...))`. -/
def candidatesFor (F B : List ℚ) : List ℚ :=
  let Fq := quantilesOpt F
  let Bq := quantilesOpt B
  let meanmid : Option ℚ :=
    match F, B with
    | _ :: _, _ :: _ =>
        some ((F.sum / (F.length : ℚ) + B.sum / (B.length : ℚ)) / 2)
    | _, _ => none
  let combos := [halfSum (qIdx Fq 1) (qIdx Bq 9), halfSum (qIdx Fq 2) (qIdx Bq 8),
                 halfSum (qIdx Fq 3) (qIdx Bq 7), meanmid]
  let tails :=
    (match Fq with
     | some l => [l.getD 1 0, l.getD 2 0, l.getD 3 0]
     | none => []) ++
    (match Bq with
     | some l => [l.getD 7 0, l.getD 8 0, l.getD 9 0]
     | none => [])
  sortAsc ((combos.filterMap id ++ tails).dedup)

/-- Source: `evaluator_autotune.py` lines 49-58, `classify` with
`use_nir=False`: each of the two `>=` tests on a finite cell contributes a
`"ripe"` vote; the prediction is `"ripe"` iff at least one vote fired
(otherwise the fallback `"unripe"`). -/
def predRipe (ty tr : ℚ) (row : ARow) : Bool :=
  (match row.y with | some v => decide (ty ≤ v) | none => false) ||
  (match row.r with | some v => decide (tr ≤ v) | none => false)

structure TuneStats where
  tp : Nat
  tn : Nat
  fp : Nat
  fn : Nat
deriving DecidableEq

/-- Source: `evaluator_autotune.py` lines 60-91, `evaluate` (per-distance
bookkeeping and misfile reporting elided: only the confusion counts and
accuracy feed the search objective). -/
def evalTune (fresh bad : List ARow) (ty tr : ℚ) : TuneStats :=
  { tp := (fresh.filter (predRipe ty tr)).length
    fn := (fresh.filter (fun w => !(predRipe ty tr w))).length
    fp := (bad.filter (predRipe ty tr)).length
    tn := (bad.filter (fun w => !(predRipe ty tr w))).length }

def tuneAcc (s : TuneStats) : ℚ :=
  let n := s.tp + s.tn + s.fp + s.fn
  if n = 0 then 0 else ((s.tp + s.tn : ℕ) : ℚ) / (n : ℚ)

/-- Python tuple comparison `score > best[0]` on `(acc, -fp)`. -/
def scoreGT (a b : ℚ × ℤ) : Bool :=
  decide (b.1 < a.1) || (decide (a.1 = b.1) && decide (b.2 < a.2))

def scoreOf (fresh bad : List ARow) (thr : ℚ × ℚ) : ℚ × ℤ :=
  let S := evalTune fresh bad thr.1 thr.2
  (tuneAcc S, -(S.fp : ℤ))

/-- One step of the grid-search loop of `main` (evaluator_autotune.py lines
175-193): keep the incumbent unless the new combination scores strictly
higher. -/
def bestFoldStep (fresh bad : List ARow)
    (best : Option ((ℚ × ℤ) × (ℚ × ℚ))) (thr : ℚ × ℚ) :
    Option ((ℚ × ℤ) × (ℚ × ℚ)) :=
  let score := scoreOf fresh bad thr
  match best with
  | none => some (score, thr)
  | some b => if scoreGT score b.1 then some (score, thr) else some b

def gridBest (fresh bad : List ARow) (yc rc : List ℚ) :
    Option ((ℚ × ℤ) × (ℚ × ℚ)) :=
  (yc.flatMap (fun ty => rc.map (fun tr => (ty, tr)))).foldl
    (bestFoldStep fresh bad) none

inductive SearchOutcome where
  | noData
  | noVariability
  | best (thr : ℚ × ℚ)
deriving DecidableEq

/-- Source: `evaluator_autotune.py` `main` (lines 158-195) with
`--use-nir` off: the two explicit `[ERR]` early exits (`No data found` and
`Not enough variability to propose thresholds`), then the grid search over
the per-feature candidate thresholds.  File I/O and report printing are
elided. -/
def searchOutcome (fresh bad : List ARow) : SearchOutcome :=
  if fresh.isEmpty || bad.isEmpty then SearchOutcome.noData
  else
    let yc := candidatesFor (pullVals (fun w => w.y) fresh)
      (pullVals (fun w => w.y) bad)
    let rc := candidatesFor (pullVals (fun w => w.r) fresh)
      (pullVals (fun w => w.r) bad)
    if yc.isEmpty || rc.isEmpty then SearchOutcome.noVariability
    else
      match gridBest fresh bad yc rc with
      | some b => SearchOutcome.best b.2
      | none => SearchOutcome.noVariability

/-! ### Concrete instances used by counterexamples and witnesses -/

def c1Row : String → Option ℚ := fun c => if c = "F1" then some 0 else none

def c1Cal : List (String × CalParams) := [("F1", { offset := some 1, scale := some 1 })]

def c1WRow : String → Option ℚ := fun c => if c = "F1" then some 3 else none

def c2Row : String → Option ℚ := fun c => if c = "r_over_g" then some (Rat.divInt 3 2) else none

def c2Cfg : DecisionCfg :=
  { rules := [{ index := "r_over_g", op := ">=", value := Thr.scalar (Rat.divInt 6 5), vote := "ripe" }]
    fallback := "unripe" }

def c3Row : String → Option ℚ := fun c => if c = "x" then some 1 else none

def c3Rules : List DRuleV :=
  [{ index := "x", op := ">=", value := Thr.scalar 0, vote := "RIPE" }]

def c4Row : String → Option ℚ :=
  fun c => if c = "F1" then some 8 else if c = "CLEAR" then some 0 else none

def c4PosRow : String → Option ℚ :=
  fun c => if c = "F1" then some 8 else if c = "CLEAR" then some 2 else none

def c5Row : String → Option ℚ :=
  fun c => if c = "F5" then some 3 else if c = "CLEAR" then some 0 else none

def c5Cols : BandCols := { g := "F3", y := "F5", r := "F7" }

def c6Fresh : List ARow := [{ y := some 1, r := some 1 }]

def c6Bad : List ARow := [{ y := some 1, r := some 1 }]

def c7Row : List (String × Option ℚ) := [("ripe_index", some (Rat.divInt 1 2))]

def c7Thr : List (String × List (String × ℚ)) := [("ri", [(">=", Rat.divInt 2 5)])]

def c7Prior : ScoreSummary := { label := "unripe", confidence := none, tag := none }

def c9Row : List (String × Option ℚ) := [("x", some 5)]

def c9Thr : List (String × List (String × ℚ)) := [("x", [(">=", 1), ("<=", 2)])]

def c9Prior : ScoreSummary := { label := "unripe", confidence := some (Rat.divInt 1 2), tag := none }

def c10Headers : List String := ["timestamp", "F1", "CLEAR"]

def c10Row1 : String → Option ℚ :=
  fun c => if c = "F1" then some 4 else if c = "CLEAR" then some 2 else none

def c10Row2 : String → Option ℚ :=
  fun c => if c = "F1" then some 6 else if c = "CLEAR" then some 3 else none

/-! ## General lemmas about the Counter model -/

theorem mem_firstOccs : ∀ (l : List String) (a : String), a ∈ firstOccs l ↔ a ∈ l := by
  intro l
  induction l using firstOccs.induct with
  | case1 =>
    intro a
    simp [firstOccs]
  | case2 v rest ih =>
    intro a
    rw [firstOccs]
    simp only [List.mem_cons]
    constructor
    · rintro (rfl | h)
      · exact Or.inl rfl
      · exact Or.inr (List.mem_filter.mp ((ih a).mp h)).1
    · rintro (rfl | h)
      · exact Or.inl rfl
      · by_cases hv : a = v
        · exact Or.inl hv
        · exact Or.inr ((ih a).mpr (List.mem_filter.mpr ⟨h, by simp [hv]⟩))

theorem voteFold_spec (votes : List String) :
    ∀ (us : List String) (u : String),
      (us.foldl (fun b v => if votes.count b < votes.count v then v else b) u = u ∧
        ∀ v ∈ us, votes.count v ≤ votes.count u) ∨
      (∃ pre post,
        us = pre ++ (us.foldl (fun b v => if votes.count b < votes.count v then v else b) u) :: post ∧
        votes.count u < votes.count
          (us.foldl (fun b v => if votes.count b < votes.count v then v else b) u) ∧
        (∀ v ∈ pre, votes.count v < votes.count
          (us.foldl (fun b v => if votes.count b < votes.count v then v else b) u)) ∧
        (∀ v ∈ post, votes.count v ≤ votes.count
          (us.foldl (fun b v => if votes.count b < votes.count v then v else b) u))) := by
  intro us
  induction us with
  | nil =>
    intro u
    left
    exact ⟨rfl, by simp⟩
  | cons w rest ih =>
    intro u
    by_cases h : votes.count u < votes.count w
    · have hstep : (w :: rest).foldl (fun b v => if votes.count b < votes.count v then v else b) u
          = rest.foldl (fun b v => if votes.count b < votes.count v then v else b) w := by
        simp [List.foldl_cons, if_pos h]
      rcases ih w with ⟨heq, hall⟩ | ⟨pre, post, hsplit, hlt, hpre, hpost⟩
      · right
        rw [hstep, heq]
        exact ⟨[], rest, rfl, h, by simp, hall⟩
      · right
        rw [hstep]
        refine ⟨w :: pre, post, ?_, lt_trans h hlt, ?_, hpost⟩
        · rw [List.cons_append, ← hsplit]
        · intro v hv
          rcases List.mem_cons.mp hv with rfl | hv2
          · exact hlt
          · exact hpre v hv2
    · have hstep : (w :: rest).foldl (fun b v => if votes.count b < votes.count v then v else b) u
          = rest.foldl (fun b v => if votes.count b < votes.count v then v else b) u := by
        simp [List.foldl_cons, if_neg h]
      rcases ih u with ⟨heq, hall⟩ | ⟨pre, post, hsplit, hlt, hpre, hpost⟩
      · left
        rw [hstep, heq]
        refine ⟨rfl, ?_⟩
        intro v hv
        rcases List.mem_cons.mp hv with rfl | hv2
        · exact le_of_not_lt h
        · exact hall v hv2
      · right
        rw [hstep]
        refine ⟨w :: pre, post, ?_, hlt, ?_, hpost⟩
        · rw [List.cons_append, ← hsplit]
        · intro v hv
          rcases List.mem_cons.mp hv with rfl | hv2
          · exact lt_of_le_of_lt (le_of_not_lt h) hlt
          · exact hpre v hv2

theorem takeWhile_ne_filter {b v : String} :
    ∀ {rest : List String} {a : String},
      a ∈ rest.takeWhile (fun x => !(decide (x = b))) → ¬(a = v) →
      a ∈ (rest.filter (fun w => !(decide (w = v)))).takeWhile
            (fun x => !(decide (x = b))) := by
  intro rest
  induction rest with
  | nil =>
    intro a h _
    simp at h
  | cons w rs ih =>
    intro a hmem hav
    by_cases hwb : w = b
    · simp [List.takeWhile_cons, hwb] at hmem
    · rw [List.takeWhile_cons] at hmem
      simp only [hwb, decide_False, Bool.not_false, if_true] at hmem
      by_cases hwv : w = v
      · rw [List.filter_cons]
        simp only [hwv, decide_True, Bool.not_true, if_false]
        rcases List.mem_cons.mp hmem with rfl | h2
        · exact absurd hwv hav
        · exact ih h2 hav
      · rw [List.filter_cons]
        simp only [hwv, decide_False, Bool.not_false, if_true]
        rw [List.takeWhile_cons]
        simp only [hwb, decide_False, Bool.not_false, if_true]
        rcases List.mem_cons.mp hmem with rfl | h2
        · exact List.mem_cons_self _ _
        · exact List.mem_cons_of_mem _ (ih h2 hav)

theorem takeWhile_firstOccs {b : String} :
    ∀ (l : List String) {a : String},
      a ∈ l.takeWhile (fun x => !(decide (x = b))) →
      a ∈ (firstOccs l).takeWhile (fun x => !(decide (x = b))) := by
  intro l
  induction l using firstOccs.induct with
  | case1 =>
    intro a h
    simp at h
  | case2 v rest ih =>
    intro a hmem
    by_cases hvb : v = b
    · simp [List.takeWhile_cons, hvb] at hmem
    · rw [List.takeWhile_cons] at hmem
      simp only [hvb, decide_False, Bool.not_false, if_true] at hmem
      rw [firstOccs, List.takeWhile_cons]
      simp only [hvb, decide_False, Bool.not_false, if_true]
      rcases List.mem_cons.mp hmem with rfl | h2
      · exact List.mem_cons_self _ _
      · by_cases hav : a = v
        · rw [hav]; exact List.mem_cons_self _ _
        · exact List.mem_cons_of_mem _ (ih (takeWhile_ne_filter h2 hav))

theorem mem_takeWhile_left {m : String} :
    ∀ (xs ys : List String) (a : String),
      a ∈ (xs ++ m :: ys).takeWhile (fun x => !(decide (x = m))) → a ∈ xs := by
  intro xs
  induction xs with
  | nil =>
    intro ys a h
    simp [List.takeWhile_cons] at h
  | cons w ws ih =>
    intro ys a h
    by_cases hwm : w = m
    · simp [List.takeWhile_cons, hwm] at h
    · rw [List.cons_append, List.takeWhile_cons] at h
      simp only [hwm, decide_False, Bool.not_false, if_true] at h
      rcases List.mem_cons.mp h with rfl | h2
      · exact List.mem_cons_self _ _
      · exact List.mem_cons_of_mem _ (ih ys a h2)

theorem takeWhile_split {a : String} :
    ∀ {l : List String}, a ∈ l →
      ∃ post, l = l.takeWhile (fun x => !(decide (x = a))) ++ a :: post := by
  intro l
  induction l with
  | nil =>
    intro h
    simp at h
  | cons w ws ih =>
    intro h
    by_cases hwa : w = a
    · subst hwa
      exact ⟨ws, by simp [List.takeWhile_cons]⟩
    · rcases List.mem_cons.mp h with rfl | h2
      · exact absurd rfl (fun hh => hwa hh.symm)
      · rcases ih h2 with ⟨post, hpost⟩
        refine ⟨post, ?_⟩
        rw [List.takeWhile_cons]
        simp only [hwa, decide_False, Bool.not_false, if_true]
        rw [List.cons_append, ← hpost]

theorem counterTop_cons_spec (w : String) (vrest : List String) (d : String) :
    counterTop (w :: vrest) d ∈ (w :: vrest) ∧
    (∀ v ∈ (w :: vrest),
        (w :: vrest).count v ≤ (w :: vrest).count (counterTop (w :: vrest) d)) ∧
    ∃ pre post, (w :: vrest) = pre ++ counterTop (w :: vrest) d :: post ∧
      ∀ v ∈ pre, (w :: vrest).count v < (w :: vrest).count (counterTop (w :: vrest) d) := by
  have hfo : firstOccs (w :: vrest)
      = w :: firstOccs (vrest.filter (fun x => !(decide (x = w)))) := by
    rw [firstOccs]
  have hct : counterTop (w :: vrest) d
      = (firstOccs (vrest.filter (fun x => !(decide (x = w))))).foldl
          (fun b v => if (w :: vrest).count b < (w :: vrest).count v then v else b) w := by
    rw [counterTop, hfo]
  rcases voteFold_spec (w :: vrest)
      (firstOccs (vrest.filter (fun x => !(decide (x = w))))) w with
    ⟨heq, hall⟩ | ⟨pre, post, hsplit, hlt, hpre, hpost⟩
  · have hmw : counterTop (w :: vrest) d = w := hct.trans heq
    rw [hmw]
    refine ⟨List.mem_cons_self _ _, ?_, [], vrest, rfl, by simp⟩
    intro v hv
    have hv2 : v ∈ firstOccs (w :: vrest) := (mem_firstOccs _ v).mpr hv
    rw [hfo] at hv2
    rcases List.mem_cons.mp hv2 with rfl | hv3
    · exact le_refl _
    · exact hall v hv3
  · rw [← hct] at hsplit hlt hpre hpost
    have hmem_us : counterTop (w :: vrest) d
        ∈ firstOccs (vrest.filter (fun x => !(decide (x = w)))) := by
      rw [hsplit]
      exact List.mem_append_right _ (List.mem_cons_self _ _)
    have hmem : counterTop (w :: vrest) d ∈ w :: vrest := by
      refine (mem_firstOccs _ _).mp ?_
      rw [hfo]
      exact List.mem_cons_of_mem _ hmem_us
    refine ⟨hmem, ?_, ?_⟩
    · intro v hv
      have hv2 : v ∈ firstOccs (w :: vrest) := (mem_firstOccs _ v).mpr hv
      rw [hfo] at hv2
      rcases List.mem_cons.mp hv2 with rfl | hv3
      · exact le_of_lt hlt
      · rw [hsplit] at hv3
        rcases List.mem_append.mp hv3 with hv4 | hv4
        · exact le_of_lt (hpre v hv4)
        · rcases List.mem_cons.mp hv4 with rfl | hv5
          · exact le_refl _
          · exact hpost v hv5
    · rcases takeWhile_split hmem with ⟨post2, hpost2⟩
      refine ⟨(w :: vrest).takeWhile
          (fun x => !(decide (x = counterTop (w :: vrest) d))), post2, hpost2, ?_⟩
      intro v hv
      have hv2 := takeWhile_firstOccs (w :: vrest) hv
      rw [hfo, hsplit] at hv2
      have hv3 : v ∈ w :: pre := by
        refine @mem_takeWhile_left (counterTop (w :: vrest) d) (w :: pre) post v ?_
        rw [List.cons_append]
        exact hv2
      rcases List.mem_cons.mp hv3 with rfl | hv4
      · exact hlt
      · exact hpre v hv4

theorem counterTop_spec (votes : List String) (d : String) (hne : votes ≠ []) :
    counterTop votes d ∈ votes ∧
    (∀ v ∈ votes, votes.count v ≤ votes.count (counterTop votes d)) ∧
    ∃ pre post, votes = pre ++ counterTop votes d :: post ∧
      ∀ v ∈ pre, votes.count v < votes.count (counterTop votes d) := by
  match votes, hne with
  | w :: vrest, _ => exact counterTop_cons_spec w vrest d

/-! ## Equivalence of the two operator chains -/

theorem evalOpTest_eq_apply_rule (op : String) (x : ℚ) (thr : Thr)
    (hwf : (match thr with
            | Thr.scalar _ => true
            | Thr.pair _ _ => !(op = ">=" || op = "<=" || op = ">" || op = "<")) = true) :
    evalOpTest op x thr = apply_rule x op thr := by
  by_cases h1 : op = "<"
  · subst h1
    cases thr with
    | scalar t => simp [evalOpTest, apply_rule]
    | pair a b => simp at hwf
  · by_cases h2 : op = "<="
    · subst h2
      cases thr with
      | scalar t => simp [evalOpTest, apply_rule]
      | pair a b => simp at hwf
    · by_cases h3 : op = ">"
      · subst h3
        cases thr with
        | scalar t => simp [evalOpTest, apply_rule]
        | pair a b => simp at hwf
      · by_cases h4 : op = ">="
        · subst h4
          cases thr with
          | scalar t => simp [evalOpTest, apply_rule]
          | pair a b => simp at hwf
        · by_cases h5 : op = "between"
          · subst h5
            simp [evalOpTest, apply_rule]
          · simp [evalOpTest, apply_rule, h1, h2, h3, h4, h5]

theorem classifyVotes_eq_evalVotes (row : String → Option ℚ)
    (rules : List DRuleV) (hwf : ∀ r ∈ rules, ruleWellFormed r = true) :
    classifyVotes row rules = evalVotes row rules := by
  induction rules with
  | nil => rfl
  | cons r rest ih =>
    have hr : ruleWellFormed r = true := hwf r (List.mem_cons_self _ _)
    have hrest : ∀ q ∈ rest, ruleWellFormed q = true :=
      fun q hq => hwf q (List.mem_cons_of_mem _ hq)
    rw [classifyVotes, evalVotes, List.filterMap_cons, List.filterMap_cons]
    rw [classifyVotes, evalVotes] at ih
    rw [ih hrest]
    cases hrow : row r.index with
    | none => simp [evalRulePass, hrow]
    | some x =>
      rw [evalRulePass] at *
      simp only [hrow]
      rw [evalOpTest_eq_apply_rule r.op x r.value (by
        rw [ruleWellFormed] at hr
        exact hr)]

theorem counterTop_nil (d : String) : counterTop [] d = d := by
  simp [counterTop, firstOccs]

theorem firstOccs_singleton (v : String) : firstOccs [v] = [v] := by
  rw [firstOccs]
  simp [firstOccs]

theorem counterTop_single (v d : String) : counterTop [v] d = v := by
  rw [counterTop, firstOccs_singleton]
  rfl

/-! ## Claim theorems: decision engine (C2, C3, C8) -/

/-- Claim C2: for every feature row and decision config (with rules the
Python code can evaluate without a `TypeError`), `eval_rules_verbose`
returns the most-voted label among the rules that pass, ties broken in
favour of the first-registered vote (every vote strictly before the
winning label's first occurrence has a strictly smaller count); when zero
rules pass — in particular when the rule list is empty — it returns the
configured fallback label with an empty vote list. -/
theorem eval_rules_majority (row : String → Option ℚ) (cfg : DecisionCfg)
    (_hwf : ∀ r ∈ cfg.rules, ruleWellFormed r = true) :
    ((∀ r ∈ cfg.rules, evalRulePass row r = false) →
        eval_rules_verbose row cfg = (cfg.fallback, [])) ∧
    (∀ label votes, eval_rules_verbose row cfg = (label, votes) → votes ≠ [] →
      label ∈ votes ∧
      (∀ v ∈ votes, votes.count v ≤ votes.count label) ∧
      ∃ pre post, votes = pre ++ label :: post ∧
        ∀ v ∈ pre, votes.count v < votes.count label) := by
  constructor
  · intro hfail
    have hv : evalVotes row cfg.rules = [] := by
      rw [evalVotes, List.filterMap_eq_nil_iff]
      intro r hr
      simp [hfail r hr]
    rw [eval_rules_verbose]
    simp only [hv]
    rw [counterTop_nil]
  · intro label votes heq hne
    rw [eval_rules_verbose] at heq
    simp only [Prod.mk.injEq] at heq
    obtain ⟨h1, h2⟩ := heq
    subst h2
    subst h1
    exact counterTop_spec (evalVotes row cfg.rules) cfg.fallback hne

/-- Witness for `eval_rules_majority`: the spec's end-to-end scenario
(`r_over_g = 1.5` against the single rule `r_over_g >= 1.2 -> ripe`). -/
theorem eval_rules_majority_witness :
    ("ripe" : String) ∈ (eval_rules_verbose c2Row c2Cfg).2 := by
  have hvv : evalVotes c2Row c2Cfg.rules = ["ripe"] := by decide
  have he : eval_rules_verbose c2Row c2Cfg = ("ripe", ["ripe"]) := by
    simp only [eval_rules_verbose, hvv, counterTop_single]
  have h := (eval_rules_majority c2Row c2Cfg (by decide)).2
      "ripe" ["ripe"] he (by decide)
  rw [he]
  exact h.1

/-- Claim C3 counterexample: with the single rule
`{"index": "x", "op": ">=", "value": 0, "vote": "RIPE"}` on the row
`{x: 1}`, the evaluator's `classify_row` returns `"ripe"` (it lowercases)
while the live scorer's `eval_rules_verbose` returns `"RIPE"` verbatim:
the two routines do not return a label of identical letter case. -/
theorem classify_eval_case_mismatch :
    classify_row c3Row c3Rules "unripe" = "ripe" ∧
    (eval_rules_verbose c3Row { rules := c3Rules, fallback := "unripe" }).1 = "RIPE" ∧
    ("ripe" : String) ≠ "RIPE" := by
  have hv : classifyVotes c3Row c3Rules = ["RIPE"] := by decide
  have hv2 : evalVotes c3Row c3Rules = ["RIPE"] := by decide
  refine ⟨?_, ?_, by decide⟩
  · rw [classify_row, hv, counterTop_single]
    decide
  · simp only [eval_rules_verbose, hv2, counterTop_single]

/-- Claim C3 (amended): on every feature row, the two rule-evaluation
routines collect identical per-rule vote outcomes (hence identical
tallies and fallback behaviour), and the labels they return agree up to
letter case only: `classify_row` returns the lowercased form of the label
`eval_rules_verbose` returns verbatim. -/
theorem classify_row_matches_eval (row : String → Option ℚ)
    (rules : List DRuleV) (fallback : String)
    (hwf : ∀ r ∈ rules, ruleWellFormed r = true) :
    classifyVotes row rules = evalVotes row rules ∧
    classify_row row rules fallback =
      pyLower ((eval_rules_verbose row { rules := rules, fallback := fallback }).1) := by
  refine ⟨classifyVotes_eq_evalVotes row rules hwf, ?_⟩
  rw [classify_row, classifyVotes_eq_evalVotes row rules hwf]
  rfl

/-- Witness for `classify_row_matches_eval` at the concrete C3 instance. -/
theorem classify_row_matches_eval_witness :
    classify_row c3Row c3Rules "unripe" =
      pyLower ((eval_rules_verbose c3Row { rules := c3Rules, fallback := "unripe" }).1) := by
  exact (classify_row_matches_eval c3Row c3Rules "unripe" (by decide)).2

/-- Claim C8: a `between` rule sorts its bound pair before testing, so the
test is `min a b ≤ x ≤ max a b` and the outcome is invariant under
swapping the two bounds — in `apply_rule` (evaluator.py) and in the
operator chain of `eval_rules_verbose` (ripeness_index_run.py) alike. -/
theorem between_bound_order_irrelevant (x a b : ℚ) :
    (apply_rule x "between" (Thr.pair a b) = apply_rule x "between" (Thr.pair b a)) ∧
    (evalOpTest "between" x (Thr.pair a b) = evalOpTest "between" x (Thr.pair b a)) ∧
    (apply_rule x "between" (Thr.pair a b) =
      (decide (min a b ≤ x) && decide (x ≤ max a b))) ∧
    (evalOpTest "between" x (Thr.pair a b) = apply_rule x "between" (Thr.pair a b)) := by
  have hsp : ∀ u v : ℚ, sortedPair (Thr.pair u v) = (min u v, max u v) := by
    intro u v
    rw [sortedPair]
    by_cases h : u ≤ v
    · rw [if_pos h, min_eq_left h, max_eq_right h]
    · rw [if_neg h, min_eq_right (le_of_not_le h), max_eq_left (le_of_not_le h)]
  have h1 : apply_rule x "between" (Thr.pair a b) =
      (decide (min a b ≤ x) && decide (x ≤ max a b)) := by
    simp [apply_rule, hsp]
  have h2 : apply_rule x "between" (Thr.pair b a) =
      (decide (min a b ≤ x) && decide (x ≤ max a b)) := by
    simp [apply_rule, hsp, min_comm b a, max_comm b a]
  have h3 : evalOpTest "between" x (Thr.pair a b) =
      (decide (min a b ≤ x) && decide (x ≤ max a b)) := by
    simp [evalOpTest, hsp]
  have h4 : evalOpTest "between" x (Thr.pair b a) =
      (decide (min a b ≤ x) && decide (x ≤ max a b)) := by
    simp [evalOpTest, hsp, min_comm b a, max_comm b a]
  exact ⟨h1.trans h2.symm, h3.trans h4.symm, h1, h3.trans h1.symm⟩

/-! ## Claim theorems: calibration (C1) -/

theorem apply_calibration_lookup (cal : List (String × CalParams)) :
    ∀ (row : String → Option ℚ) (c : String),
      (cal.map Prod.fst).Nodup →
      ((cal.find? (fun bp => bp.1 == c) = none →
          apply_calibration row cal c = row c) ∧
       (∀ p, cal.find? (fun bp => bp.1 == c) = some p →
          apply_calibration row cal c =
            (row c).map (fun v => (v - p.2.offset.getD 0) * p.2.scale.getD 1))) := by
  induction cal with
  | nil =>
    intro row c _
    refine ⟨fun _ => rfl, fun p hp => by simp at hp⟩
  | cons bp rest ih =>
    intro row c hnd
    rw [List.map_cons, List.nodup_cons] at hnd
    have hstep : ∀ x, apply_calibration row (bp :: rest) x
        = apply_calibration (fun y =>
            if y = bp.1 then
              (row bp.1).map (fun v => (v - bp.2.offset.getD 0) * bp.2.scale.getD 1)
            else row y) rest x := by
      intro x
      rfl
    by_cases hc : bp.1 = c
    · have hfind : (bp :: rest).find? (fun q => q.1 == c) = some bp :=
        List.find?_cons_of_pos _ (by simp [hc])
      have hrest : rest.find? (fun q => q.1 == c) = none := by
        rw [List.find?_eq_none]
        intro q hq
        simp only [beq_iff_eq]
        intro hqc
        apply hnd.1
        have hmem : q.1 ∈ rest.map Prod.fst := List.mem_map_of_mem Prod.fst hq
        rw [hqc, ← hc] at hmem
        exact hmem
      constructor
      · intro habs
        rw [hfind] at habs
        exact absurd habs (by simp)
      · intro p hp
        rw [hfind] at hp
        have hpb : bp = p := Option.some.inj hp
        subst hpb
        rw [hstep c, (ih _ c hnd.2).1 hrest]
        rw [if_pos hc.symm, hc]
    · have hfind : (bp :: rest).find? (fun q => q.1 == c)
          = rest.find? (fun q => q.1 == c) :=
        List.find?_cons_of_neg _ (by simp [hc])
      have hcc : ¬ (c = bp.1) := fun h => hc h.symm
      constructor
      · intro hnone
        rw [hfind] at hnone
        rw [hstep c, (ih _ c hnd.2).1 hnone]
        simp [hcc]
      · intro p hp
        rw [hfind] at hp
        rw [hstep c, (ih _ c hnd.2).2 p hp]
        simp [hcc]

theorem apply_offsets_scales_lookup (cal : List (String × CalParams)) :
    ∀ (row : String → Option ℚ) (c : String),
      (cal.map Prod.fst).Nodup →
      ((cal.find? (fun bp => bp.1 == c) = none →
          apply_offsets_scales row cal c = row c) ∧
       (∀ p, cal.find? (fun bp => bp.1 == c) = some p →
          apply_offsets_scales row cal c =
            (row c).map (fun v => (v + p.2.offset.getD 0) * p.2.scale.getD 1))) := by
  induction cal with
  | nil =>
    intro row c _
    refine ⟨fun _ => rfl, fun p hp => by simp at hp⟩
  | cons bp rest ih =>
    intro row c hnd
    rw [List.map_cons, List.nodup_cons] at hnd
    have hstep : ∀ x, apply_offsets_scales row (bp :: rest) x
        = apply_offsets_scales (fun y =>
            if y = bp.1 then
              (row bp.1).map (fun v => (v + bp.2.offset.getD 0) * bp.2.scale.getD 1)
            else row y) rest x := by
      intro x
      rfl
    by_cases hc : bp.1 = c
    · have hfind : (bp :: rest).find? (fun q => q.1 == c) = some bp :=
        List.find?_cons_of_pos _ (by simp [hc])
      have hrest : rest.find? (fun q => q.1 == c) = none := by
        rw [List.find?_eq_none]
        intro q hq
        simp only [beq_iff_eq]
        intro hqc
        apply hnd.1
        have hmem : q.1 ∈ rest.map Prod.fst := List.mem_map_of_mem Prod.fst hq
        rw [hqc, ← hc] at hmem
        exact hmem
      constructor
      · intro habs
        rw [hfind] at habs
        exact absurd habs (by simp)
      · intro p hp
        rw [hfind] at hp
        have hpb : bp = p := Option.some.inj hp
        subst hpb
        rw [hstep c, (ih _ c hnd.2).1 hrest]
        rw [if_pos hc.symm, hc]
    · have hfind : (bp :: rest).find? (fun q => q.1 == c)
          = rest.find? (fun q => q.1 == c) :=
        List.find?_cons_of_neg _ (by simp [hc])
      have hcc : ¬ (c = bp.1) := fun h => hc h.symm
      constructor
      · intro hnone
        rw [hfind] at hnone
        rw [hstep c, (ih _ c hnd.2).1 hnone]
        simp [hcc]
      · intro p hp
        rw [hfind] at hp
        rw [hstep c, (ih _ c hnd.2).2 p hp]
        simp [hcc]

/-- Claim C1 counterexample: `apply_calibration` (calibrate_index.py line
37) subtracts the offset.  With offset 1, scale 1 and channel value 0 it
returns −1, while the claimed formula `(value + offset) * scale` gives 1. -/
theorem apply_calibration_subtracts_offset :
    apply_calibration c1Row c1Cal "F1" = some (-1) ∧
    ¬ ((-1 : ℚ) = (0 + 1) * 1) := by
  constructor
  · have h := (apply_calibration_lookup c1Cal c1Row "F1" (by decide)).2
        ("F1", { offset := some 1, scale := some 1 }) (by decide)
    rw [h]
    norm_num [c1Row]
  · norm_num

/-- Claim C1 (amended): for every reading and calibration profile (with
pairwise-distinct channel keys, as a parsed JSON object has),
`apply_offsets_scales` (ripeness_index_run.py) maps each channel present
in the profile to `(value + offset) * scale`, while `apply_calibration`
(calibrate_index.py) maps it to `(value - offset) * scale`; in both
functions every channel absent from the profile passes through unchanged. -/
theorem calibration_channel_map (row : String → Option ℚ)
    (cal : List (String × CalParams)) (hnd : (cal.map Prod.fst).Nodup) :
    (∀ c, cal.find? (fun bp => bp.1 == c) = none →
        apply_calibration row cal c = row c ∧
        apply_offsets_scales row cal c = row c) ∧
    (∀ c p, cal.find? (fun bp => bp.1 == c) = some p →
        apply_calibration row cal c =
          (row c).map (fun v => (v - p.2.offset.getD 0) * p.2.scale.getD 1) ∧
        apply_offsets_scales row cal c =
          (row c).map (fun v => (v + p.2.offset.getD 0) * p.2.scale.getD 1)) := by
  constructor
  · intro c hnone
    exact ⟨(apply_calibration_lookup cal row c hnd).1 hnone,
      (apply_offsets_scales_lookup cal row c hnd).1 hnone⟩
  · intro c p hp
    exact ⟨(apply_calibration_lookup cal row c hnd).2 p hp,
      (apply_offsets_scales_lookup cal row c hnd).2 p hp⟩

/-- Witness for `calibration_channel_map` on a concrete reading/profile. -/
theorem calibration_channel_map_witness :
    apply_calibration c1WRow c1Cal "F1" = some ((3 - 1) * 1) ∧
    apply_offsets_scales c1WRow c1Cal "F1" = some ((3 + 1) * 1) ∧
    apply_calibration c1WRow c1Cal "F2" = none := by
  have h := calibration_channel_map c1WRow c1Cal (by decide)
  have h1 := h.2 "F1" ("F1", { offset := some 1, scale := some 1 }) (by decide)
  have h0 := h.1 "F2" (by decide)
  refine ⟨?_, ?_, ?_⟩
  · rw [h1.1]
    norm_num [c1WRow]
  · rw [h1.2]
    norm_num [c1WRow]
  · rw [h0.1]
    decide

/-! ## Claim theorems: index ratios (C5) -/

/-- Claim C5: `compute_ratios_from_row` is a total function (every
denominator is guarded, so the Python never divides by zero and never
raises); when the green band is ≤ 0 the `y_over_g` and `r_over_g`
denominator is the positive constant floor 1.0 substituted by
`g = g if g > 0 else 1.0`; `nir_over_red` is 0 when the red band is ≤ 0;
`green_drop` is 0 when CLEAR is ≤ 0. -/
theorem compute_ratios_guards (latest : String → Option ℚ) (cols : BandCols) :
    ((latest cols.g).getD 0 ≤ 0 →
        (compute_ratios_from_row latest cols).y_over_g = (latest cols.y).getD 0 / 1 ∧
        (compute_ratios_from_row latest cols).r_over_g = (latest cols.r).getD 0 / 1) ∧
    ((latest cols.r).getD 0 ≤ 0 →
        (compute_ratios_from_row latest cols).nir_over_red = 0) ∧
    ((latest "CLEAR").getD 1 ≤ 0 →
        (compute_ratios_from_row latest cols).green_drop = 0) := by
  refine ⟨?_, ?_, ?_⟩
  · intro h
    constructor <;>
      simp [compute_ratios_from_row, if_neg (not_lt.mpr h)]
  · intro h
    simp [compute_ratios_from_row, if_neg (not_lt.mpr h)]
  · intro h
    simp [compute_ratios_from_row, if_neg (not_lt.mpr h)]

/-- Witness for `compute_ratios_guards`: a reading with the green band
absent (read as 0), red band absent and CLEAR = 0. -/
theorem compute_ratios_guards_witness :
    (compute_ratios_from_row c5Row c5Cols).y_over_g = (3 : ℚ) / 1 ∧
    (compute_ratios_from_row c5Row c5Cols).nir_over_red = 0 ∧
    (compute_ratios_from_row c5Row c5Cols).green_drop = 0 := by
  have h := compute_ratios_guards c5Row c5Cols
  refine ⟨?_, h.2.1 (by decide), h.2.2 (by decide)⟩
  have h1 := (h.1 (by decide)).1
  have hy : (c5Row c5Cols.y).getD 0 = 3 := by decide
  rw [hy] at h1
  exact h1

/-! ## Claim theorems: threshold overrides (C7, C9) -/

theorem overrideLoop_eq (features : List (String × ℚ)) (current : ScoreSummary) :
    ∀ (l : List (String × List (String × ℚ))),
      overrideLoop features current l =
        if l.all (fun p => condPasses features p.1 p.2) then forcedSummary current
        else current := by
  intro l
  induction l with
  | nil => simp [overrideLoop]
  | cons p rest ih =>
    obtain ⟨feat, cond⟩ := p
    have hall : ((feat, cond) :: rest).all (fun q => condPasses features q.1 q.2)
        = (condPasses features feat cond &&
            rest.all (fun q => condPasses features q.1 q.2)) := by
      rw [List.all_cons]
    cases cond with
    | nil =>
      have hcp : condPasses features feat ([] : List (String × ℚ)) = true := rfl
      rw [overrideLoop, ih, hall, hcp, Bool.true_and]
    | cons e crest =>
      obtain ⟨op, thr⟩ := e
      have hcp : condPasses features feat ((op, thr) :: crest)
          = (isKnownOverrideOp op &&
              (match lookupF features feat with
               | some val => overrideOpEval op val thr
               | none => false)) := rfl
      rw [overrideLoop, hall, hcp]
      by_cases hk : isKnownOverrideOp op = true
      · rw [hk, Bool.true_and]
        cases hlf : lookupF features feat with
        | none => simp
        | some val =>
          by_cases ht : overrideOpEval op val thr = true
          · simp only [ht, if_true, ih]
            simp only [Bool.not_true, Bool.false_eq_true, if_false]
            rw [Bool.true_and]
          · have ht2 : overrideOpEval op val thr = false := by
              cases h : overrideOpEval op val thr
              · rfl
              · exact absurd h ht
            simp [ht2]
      · have hk2 : isKnownOverrideOp op = false := by
          cases h : isKnownOverrideOp op
          · rfl
          · exact absurd h hk
        rw [hk2]
        simp

/-- Claim C7 counterexample: the override map `{"ri": {">=": 0.4}}` against
an index row lacking the `ri` feature (the row holds `ripe_index = 0.5`)
does not return the untouched prior result: the friendly alias
`ripe_index -> ri` of `_apply_threshold_overrides` lets the condition pass
and the label is forced to `"ripe"`. -/
theorem override_alias_changes_result :
    c7Row.find? (fun p => p.1 == "ri") = none ∧
    applyThresholdOverrides c7Row c7Thr c7Prior ≠ c7Prior ∧
    (applyThresholdOverrides c7Row c7Thr c7Prior).label = "ripe" := by
  refine ⟨by decide, by decide, by decide⟩

/-- Claim C7 (amended): `applyOverride` returns the prior result unchanged
whenever any override condition fails — uses an unknown operator, or
references a feature absent from the alias-extended feature map
(`nir/red` also answers to `nir_red_ratio`, `ripe_index` to `ri`), or its
first operator entry tests false; only when every condition passes (and
the override map is nonempty) does it return a changed result, whose label
is forced to the positive class `"ripe"` and whose confidence is raised to
at least 0.9 (and at least the prior confidence), tagged with provenance. -/
theorem override_frame_conditions (row : List (String × Option ℚ))
    (thresholds : List (String × List (String × ℚ))) (current : ScoreSummary) :
    (¬ (thresholds.all
          (fun p => condPasses (withAliases (featuresOf row)) p.1 p.2) = true) →
        applyThresholdOverrides row thresholds current = current) ∧
    (thresholds ≠ [] →
      thresholds.all (fun p => condPasses (withAliases (featuresOf row)) p.1 p.2) = true →
        applyThresholdOverrides row thresholds current = forcedSummary current ∧
        (applyThresholdOverrides row thresholds current).label = "ripe" ∧
        (9 / 10 : ℚ) ≤ ((applyThresholdOverrides row thresholds current).confidence).getD 0 ∧
        (current.confidence).getD 0 ≤
          ((applyThresholdOverrides row thresholds current).confidence).getD 0) ∧
    (applyThresholdOverrides row thresholds current ≠ current →
        thresholds.all (fun p => condPasses (withAliases (featuresOf row)) p.1 p.2) = true) := by
  cases thresholds with
  | nil =>
    refine ⟨fun _ => rfl, fun h => absurd rfl h, fun h => absurd rfl h⟩
  | cons t ts =>
    have hne : ((t :: ts).isEmpty) = false := rfl
    have hbody : applyThresholdOverrides row (t :: ts) current =
        if (t :: ts).all (fun p => condPasses (withAliases (featuresOf row)) p.1 p.2)
        then forcedSummary current else current := by
      rw [applyThresholdOverrides, hne]
      simp only [Bool.false_eq_true, if_false]
      exact overrideLoop_eq _ current (t :: ts)
    refine ⟨?_, ?_, ?_⟩
    · intro hfail
      rw [hbody, if_neg hfail]
    · intro _ hpass
      rw [hbody, if_pos hpass]
      refine ⟨rfl, rfl, ?_, ?_⟩
      · simp [forcedSummary]
      · simp [forcedSummary]
    · intro hchange
      by_cases hall : (t :: ts).all
          (fun p => condPasses (withAliases (featuresOf row)) p.1 p.2) = true
      · exact hall
      · rw [hbody, if_neg hall] at hchange
        exact absurd rfl hchange

/-- Witness for `override_frame_conditions`: the concrete aliased override
passes all conditions and forces the summary. -/
theorem override_frame_conditions_witness :
    applyThresholdOverrides c7Row c7Thr c7Prior = forcedSummary c7Prior := by
  exact ((override_frame_conditions c7Row c7Thr c7Prior).2.1 (by decide) (by decide)).1

/-- Claim C9: an override condition mapping with several operator entries
is tested only on its first entry (`next(iter(cond.items()))` in
`_apply_threshold_overrides`); the remaining entries are ignored, so a row
can satisfy the override while violating an ignored operator — concretely,
the row `{x: 5}` passes the override `{"x": {">=": 1, "<=": 2}}` and is
forced to `"ripe"` although 5 violates the ignored `"<=" 2` entry. -/
theorem override_ignores_later_entries :
    (∀ (row : List (String × Option ℚ)) (current : ScoreSummary)
        (pre post : List (String × List (String × ℚ))) (feat : String)
        (e : String × ℚ) (rest2 : List (String × ℚ)),
        applyThresholdOverrides row (pre ++ (feat, e :: rest2) :: post) current =
          applyThresholdOverrides row (pre ++ (feat, [e]) :: post) current) ∧
    applyThresholdOverrides c9Row c9Thr c9Prior = forcedSummary c9Prior ∧
    overrideOpEval "<=" 5 2 = false := by
  refine ⟨?_, ?_, by decide⟩
  · intro row current pre post feat e rest2
    have h1 : ((pre ++ (feat, e :: rest2) :: post).isEmpty) = false := by
      cases pre <;> rfl
    have h2 : ((pre ++ (feat, [e]) :: post).isEmpty) = false := by
      cases pre <;> rfl
    rw [applyThresholdOverrides, applyThresholdOverrides, h1, h2]
    simp only [Bool.false_eq_true, if_false]
    rw [overrideLoop_eq, overrideLoop_eq]
    have hcp : condPasses (withAliases (featuresOf row)) feat (e :: rest2)
        = condPasses (withAliases (featuresOf row)) feat [e] := by
      obtain ⟨op, thr⟩ := e
      rfl
    simp only [List.all_append, List.all_cons]
    rw [hcp]
  · rw [applyThresholdOverrides]
    have hne : (c9Thr.isEmpty) = false := rfl
    rw [hne]
    simp only [Bool.false_eq_true, if_false]
    rw [overrideLoop_eq, if_pos (by decide)]

/-! ## Claim theorems: inline normalizer (C4, C10) -/

theorem lookupQ_cons (p : String × ℚ) (rest : List (String × ℚ)) (c : String) :
    lookupQ (p :: rest) c = if p.1 = c then p.2 else lookupQ rest c := by
  rw [lookupQ]
  by_cases h : p.1 = c
  · rw [List.find?_cons_of_pos _ (by simp [h]), if_pos h]
  · rw [List.find?_cons_of_neg _ (by simp [h]), if_neg h]
    rfl

theorem lookupQ_map_mem (g : String → ℚ) :
    ∀ (headers : List String) (c : String), c ∈ headers →
      lookupQ (headers.map (fun x => (x, g x))) c = g c := by
  intro headers
  induction headers with
  | nil =>
    intro c hc
    simp at hc
  | cons h0 rest ih =>
    intro c hc
    rw [List.map_cons, lookupQ_cons]
    by_cases he : h0 = c
    · rw [if_pos he, he]
    · rw [if_neg he]
      rcases List.mem_cons.mp hc with rfl | h2
      · exact absurd rfl he
      · exact ih c h2

theorem lookupQ_map_zero (g : String → ℚ) :
    ∀ (headers : List String) (c : String), g c = 0 →
      lookupQ (headers.map (fun x => (x, g x))) c = 0 := by
  intro headers
  induction headers with
  | nil =>
    intro c _
    rfl
  | cons h0 rest ih =>
    intro c hg
    rw [List.map_cons, lookupQ_cons]
    by_cases he : h0 = c
    · rw [if_pos he, he]
      exact hg
    · rw [if_neg he]
      exact ih c hg

theorem round8_zero : round8 0 = 0 := by
  rw [round8]
  norm_num

theorem meanQ_zero (l : List ℚ) (h : ∀ x ∈ l, x = 0) : meanQ l = 0 := by
  rw [meanQ, List.sum_eq_zero h, zero_div]

theorem normalizeRowInline_lookup (headers : List String) (cc : String)
    (row : String → Option ℚ) (c : String) (hc : c ∈ headers) :
    lookupQ (normalizeRowInline headers cc row) c =
      if c = cc then (if 0 < (row cc).getD 0 then 1 else 0)
      else normCell ((row cc).getD 0) (row c) := by
  simp only [normalizeRowInline]
  exact lookupQ_map_mem _ headers c hc

theorem normalizeRowInline_nonnumeric (headers : List String) (cc : String)
    (row : String → Option ℚ) (c : String) (hne : c ≠ cc) (hnone : row c = none) :
    lookupQ (normalizeRowInline headers cc row) c = 0 := by
  simp only [normalizeRowInline]
  apply lookupQ_map_zero
  rw [if_neg hne, hnone]
  rfl

theorem smoothRows_zero_col (window : Nat) (headers : List String) (cc c : String)
    (hne : c ≠ cc) :
    ∀ (pending prevRev : List (List (String × ℚ))),
      (∀ x ∈ pending, lookupQ x c = 0) →
      (∀ x ∈ prevRev, lookupQ x c = 0) →
      ∀ out ∈ smoothRows window headers cc prevRev pending, lookupQ out c = 0 := by
  intro pending
  induction pending with
  | nil =>
    intro prevRev _ _ out hout
    simp [smoothRows] at hout
  | cons r rest ih =>
    intro prevRev hp hprev out hout
    rw [smoothRows] at hout
    rcases List.mem_cons.mp hout with rfl | hout2
    · apply lookupQ_map_zero
      rw [if_neg hne]
      have hmean : meanQ (((r :: prevRev).take window).map (fun x => lookupQ x c)) = 0 := by
        apply meanQ_zero
        intro y hy
        rcases List.mem_map.mp hy with ⟨x, hx, rfl⟩
        have hx2 : x ∈ r :: prevRev := List.take_subset _ _ hx
        rcases List.mem_cons.mp hx2 with rfl | hx3
        · exact hp x (List.mem_cons_self _ _)
        · exact hprev x hx3
      rw [hmean, round8_zero]
    · refine ih (r :: prevRev) (fun x hx => hp x (List.mem_cons_of_mem _ hx)) ?_ out hout2
      intro x hx
      rcases List.mem_cons.mp hx with rfl | hx2
      · exact hp x (List.mem_cons_self _ _)
      · exact hprev x hx2

/-- Claim C4 counterexample: `_normalize_inline` on a row whose CLEAR value
is 0 records the reference (CLEAR) cell as `"0"`, not as `"1.0"`
(`out_r[clear_col] = "1.0" if clr > 0 else "0"`, frad_appV6.py line 219):
the claim's "the reference itself is recorded as 1.0" is false. -/
theorem normalize_zero_reference_recorded_zero :
    lookupQ (normalizeRowInline ["F1", "CLEAR"] "CLEAR" c4Row) "CLEAR" = 0 ∧
    ¬ ((0 : ℚ) = 1) := by
  constructor
  · decide
  · norm_num

/-- Claim C4 (amended): in the inline normalizer's per-row pass, when the
reference (CLEAR) value is ≤ 0 every output cell — including the reference
cell itself, which is written as `"0"`, not `"1.0"` — is 0, and no
exception is raised (the function is total); when the reference value is
positive, the reference cell is recorded as exactly 1.0 and every other
parseable cell is divided by the reference (then rounded to 8 decimal
places by the `"%.8f"` formatting). -/
theorem normalize_inline_reference_semantics (headers : List String) (cc : String)
    (row : String → Option ℚ) :
    ((row cc).getD 0 ≤ 0 →
        ∀ c ∈ headers, lookupQ (normalizeRowInline headers cc row) c = 0) ∧
    (0 < (row cc).getD 0 →
      (cc ∈ headers → lookupQ (normalizeRowInline headers cc row) cc = 1) ∧
      (∀ c ∈ headers, c ≠ cc →
        lookupQ (normalizeRowInline headers cc row) c =
          (match row c with
           | some v => round8 (v / (row cc).getD 0)
           | none => 0))) := by
  constructor
  · intro hle c hc
    rw [normalizeRowInline_lookup headers cc row c hc]
    by_cases he : c = cc
    · rw [if_pos he, if_neg (not_lt.mpr hle)]
    · rw [if_neg he]
      cases hrc : row c with
      | none => rfl
      | some v =>
        show (if 0 < (row cc).getD 0 then round8 (v / (row cc).getD 0) else 0) = 0
        rw [if_neg (not_lt.mpr hle)]
  · intro hpos
    constructor
    · intro hcc
      rw [normalizeRowInline_lookup headers cc row cc hcc, if_pos rfl, if_pos hpos]
    · intro c hc hnecc
      rw [normalizeRowInline_lookup headers cc row c hc, if_neg hnecc]
      cases hrc : row c with
      | none => rfl
      | some v =>
        show (if 0 < (row cc).getD 0 then round8 (v / (row cc).getD 0) else 0)
          = round8 (v / (row cc).getD 0)
        rw [if_pos hpos]

/-- Witness for `normalize_inline_reference_semantics` on concrete rows:
CLEAR = 0 zeroes every cell; CLEAR = 2 gives reference output 1 and F1
output `round8 (8 / 2)`. -/
theorem normalize_inline_reference_semantics_witness :
    lookupQ (normalizeRowInline ["F1", "CLEAR"] "CLEAR" c4Row) "F1" = 0 ∧
    lookupQ (normalizeRowInline ["F1", "CLEAR"] "CLEAR" c4PosRow) "CLEAR" = 1 ∧
    lookupQ (normalizeRowInline ["F1", "CLEAR"] "CLEAR" c4PosRow) "F1" =
      round8 ((8 : ℚ) / 2) := by
  refine ⟨?_, ?_, ?_⟩
  · exact (normalize_inline_reference_semantics ["F1", "CLEAR"] "CLEAR" c4Row).1
      (by decide) "F1" (by decide)
  · exact ((normalize_inline_reference_semantics ["F1", "CLEAR"] "CLEAR" c4PosRow).2
      (by decide)).1 (by decide)
  · have h := ((normalize_inline_reference_semantics ["F1", "CLEAR"] "CLEAR" c4PosRow).2
      (by decide)).2 "F1" (by decide) (by decide)
    have h1 : c4PosRow "F1" = some 8 := by decide
    have h2 : c4PosRow "CLEAR" = some 2 := by decide
    rw [h, h1, h2]
    norm_num

/-- Claim C10: the inline normalization fallback treats every input column
except the CLEAR column as a channel to normalize; a cell it cannot parse
as a number (for example a timestamp) is replaced by `"0"` in the
normalized row, and consequently a column that is non-numeric in every
input row is all-zero in the final (smoothed) output — non-numeric columns
do not pass through unchanged. -/
theorem normalize_inline_nonnumeric_becomes_zero :
    (∀ (headers : List String) (cc : String) (row : String → Option ℚ) (c : String),
        c ≠ cc → row c = none →
        lookupQ (normalizeRowInline headers cc row) c = 0) ∧
    (∀ (window : Nat) (headers : List String) (rows : List (String → Option ℚ))
        (res : List (List (String × ℚ))) (cc c : String),
        normalize_inline window headers rows = Except.ok res →
        headers.find? isClearHeader = some cc →
        c ≠ cc →
        (∀ row ∈ rows, row c = none) →
        ∀ out ∈ res, lookupQ out c = 0) := by
  constructor
  · intro headers cc row c hne hnone
    exact normalizeRowInline_nonnumeric headers cc row c hne hnone
  · intro window headers rows res cc c hok hfind hne hcol out hout
    rw [normalize_inline] at hok
    by_cases hempty : rows.isEmpty = true
    · rw [if_pos hempty] at hok
      exact absurd hok (by simp)
    · rw [if_neg hempty, hfind] at hok
      have hres : smoothRows window headers cc []
          (rows.map (normalizeRowInline headers cc)) = res := by
        injection hok
      rw [← hres] at hout
      refine smoothRows_zero_col window headers cc c hne
        (rows.map (normalizeRowInline headers cc)) [] ?_ (by simp) out hout
      intro x hx
      rcases List.mem_map.mp hx with ⟨row0, hr0, rfl⟩
      exact normalizeRowInline_nonnumeric headers cc row0 c hne (hcol row0 hr0)

/-- Witness for `normalize_inline_nonnumeric_becomes_zero` on a concrete
row with a textual timestamp cell. -/
theorem normalize_inline_nonnumeric_becomes_zero_witness :
    lookupQ (normalizeRowInline c10Headers "CLEAR" c10Row1) "timestamp" = 0 := by
  exact normalize_inline_nonnumeric_becomes_zero.1 c10Headers "CLEAR" c10Row1
    "timestamp" (by decide) (by decide)

/-! ## Claim theorems: threshold autotuner (C6) -/

theorem candidatesFor_eq_nil (F B : List ℚ) (h : candidatesFor F B = []) :
    F = [] ∧ B = [] := by
  simp only [candidatesFor] at h
  have hlen := congrArg List.length h
  rw [sortAsc, List.length_insertionSort] at hlen
  have hd := List.length_eq_zero.mp hlen
  have hat := (List.dedup_eq_nil _).mp hd
  have hT := (List.append_eq_nil.mp hat).2
  cases F with
  | cons f fs =>
    rw [show quantilesOpt (f :: fs)
        = some (QLIST.map (quantileAt (sortAsc (f :: fs)))) from rfl] at hT
    simp at hT
  | nil =>
    cases B with
    | cons b bs =>
      rw [show quantilesOpt (b :: bs)
          = some (QLIST.map (quantileAt (sortAsc (b :: bs)))) from rfl] at hT
      simp [quantilesOpt] at hT
    | nil => exact ⟨rfl, rfl⟩

theorem bestFoldStep_some (fresh bad : List ARow) (b : (ℚ × ℤ) × (ℚ × ℚ))
    (t : ℚ × ℚ) :
    ∃ b2, bestFoldStep fresh bad (some b) t = some b2 := by
  simp only [bestFoldStep]
  by_cases h : scoreGT (scoreOf fresh bad t) b.1 = true
  · exact ⟨_, by rw [if_pos h]⟩
  · exact ⟨_, by rw [if_neg h]⟩

theorem bestFold_preserves_some (fresh bad : List ARow) :
    ∀ (l : List (ℚ × ℚ)) (b : (ℚ × ℤ) × (ℚ × ℚ)),
      (l.foldl (bestFoldStep fresh bad) (some b)).isSome := by
  intro l
  induction l with
  | nil =>
    intro b
    rfl
  | cons t ts ih =>
    intro b
    rw [List.foldl_cons]
    rcases bestFoldStep_some fresh bad b t with ⟨b2, hb2⟩
    rw [hb2]
    exact ih b2

theorem gridBest_isSome (fresh bad : List ARow) (y0 : ℚ) (ys : List ℚ)
    (r0 : ℚ) (rs : List ℚ) :
    (gridBest fresh bad (y0 :: ys) (r0 :: rs)).isSome := by
  rw [gridBest, List.flatMap_cons, List.map_cons, List.cons_append,
    List.foldl_cons]
  have h1 : bestFoldStep fresh bad none (y0, r0)
      = some (scoreOf fresh bad (y0, r0), (y0, r0)) := rfl
  rw [h1]
  exact bestFold_preserves_some fresh bad _ _

/-- Claim C6 (amended): the threshold search reports its explicit no-data
error exactly when either labelled population is empty, and its
no-variability error only when a feature has no numeric value anywhere in
one of the two populations (so its candidate list is empty); in both error
cases no best-threshold candidate is returned.  Zero variance alone does
not trigger the report (see the counterexample theorem). -/
theorem autotune_insufficient_reports (fresh bad : List ARow) :
    ((fresh = [] ∨ bad = []) → searchOutcome fresh bad = SearchOutcome.noData) ∧
    (searchOutcome fresh bad = SearchOutcome.noVariability →
      (pullVals (fun w => w.y) fresh = [] ∧ pullVals (fun w => w.y) bad = []) ∨
      (pullVals (fun w => w.r) fresh = [] ∧ pullVals (fun w => w.r) bad = [])) := by
  constructor
  · intro h
    rw [searchOutcome]
    have he : (fresh.isEmpty || bad.isEmpty) = true := by
      rcases h with rfl | rfl <;> simp
    rw [he]
    rfl
  · intro h
    simp only [searchOutcome] at h
    by_cases he : (fresh.isEmpty || bad.isEmpty) = true
    · rw [if_pos he] at h
      exact SearchOutcome.noConfusion h
    · rw [if_neg he] at h
      by_cases hv : ((candidatesFor (pullVals (fun w => w.y) fresh)
            (pullVals (fun w => w.y) bad)).isEmpty ||
          (candidatesFor (pullVals (fun w => w.r) fresh)
            (pullVals (fun w => w.r) bad)).isEmpty) = true
      · rcases Bool.or_eq_true_iff.mp hv with h1 | h1
        · exact Or.inl (candidatesFor_eq_nil _ _ (List.isEmpty_iff.mp h1))
        · exact Or.inr (candidatesFor_eq_nil _ _ (List.isEmpty_iff.mp h1))
      · rw [if_neg hv] at h
        exfalso
        have hyne : candidatesFor (pullVals (fun w => w.y) fresh)
            (pullVals (fun w => w.y) bad) ≠ [] := by
          intro hh
          exact hv (by rw [hh]; simp)
        have hrne : candidatesFor (pullVals (fun w => w.r) fresh)
            (pullVals (fun w => w.r) bad) ≠ [] := by
          intro hh
          exact hv (by rw [hh]; simp)
        obtain ⟨y0, ys, hys⟩ : ∃ y0 ys, candidatesFor (pullVals (fun w => w.y) fresh)
            (pullVals (fun w => w.y) bad) = y0 :: ys := by
          cases hcase : candidatesFor (pullVals (fun w => w.y) fresh)
              (pullVals (fun w => w.y) bad) with
          | nil => exact absurd hcase hyne
          | cons a l => exact ⟨a, l, rfl⟩
        obtain ⟨r0, rs, hrs⟩ : ∃ r0 rs, candidatesFor (pullVals (fun w => w.r) fresh)
            (pullVals (fun w => w.r) bad) = r0 :: rs := by
          cases hcase : candidatesFor (pullVals (fun w => w.r) fresh)
              (pullVals (fun w => w.r) bad) with
          | nil => exact absurd hcase hrne
          | cons a l => exact ⟨a, l, rfl⟩
        rw [hys, hrs] at h
        rcases Option.isSome_iff_exists.mp (gridBest_isSome fresh bad y0 ys r0 rs)
          with ⟨b, hb⟩
        rw [hb] at h
        exact SearchOutcome.noConfusion h

/-- Witness for `autotune_insufficient_reports`: an empty fresh population
reports the no-data condition. -/
theorem autotune_insufficient_reports_witness :
    searchOutcome [] c6Bad = SearchOutcome.noData := by
  exact (autotune_insufficient_reports [] c6Bad).1 (Or.inl rfl)

/-- Claim C6 counterexample: two nonempty populations with zero variance in
every feature (all rows `y_over_g = r_over_g = 1`) do NOT make the search
report insufficient data: `build_candidates` still produces the candidate
1.0 for each feature (midpoints and quantiles of two constant
distributions), and the grid search returns the best-threshold candidate
`(1, 1)`. -/
theorem autotune_zero_variance_returns_candidate :
    searchOutcome c6Fresh c6Bad = SearchOutcome.best (1, 1) ∧
    searchOutcome c6Fresh c6Bad ≠ SearchOutcome.noVariability ∧
    searchOutcome c6Fresh c6Bad ≠ SearchOutcome.noData := by
  have hqa : ∀ q : ℚ, quantileAt [1] q = 1 := by
    intro q
    simp only [quantileAt]
    norm_num
  have hsa1 : sortAsc [1] = [1] := by decide
  have hqo : quantilesOpt [1] = some [1, 1, 1, 1, 1, 1, 1, 1, 1, 1, 1] := by
    rw [show quantilesOpt [1] = some (QLIST.map (quantileAt (sortAsc [1]))) from rfl,
      hsa1, QLIST]
    simp [hqa]
  have hc : candidatesFor [1] [1] = [1] := by
    simp only [candidatesFor, hqo, qIdx, halfSum, Option.map_some]
    norm_num
    decide
  have hpy : pullVals (fun w => w.y) c6Fresh = [1] := by decide
  have hpy2 : pullVals (fun w => w.y) c6Bad = [1] := by decide
  have hpr : pullVals (fun w => w.r) c6Fresh = [1] := by decide
  have hpr2 : pullVals (fun w => w.r) c6Bad = [1] := by decide
  have hmain : searchOutcome c6Fresh c6Bad = SearchOutcome.best (1, 1) := by
    simp only [searchOutcome, hpy, hpy2, hpr, hpr2, hc]
    rfl
  refine ⟨hmain, ?_, ?_⟩
  · rw [hmain]
    simp
  · rw [hmain]
    simp
